import Mathlib

/-!
Shallow embedding of `src/stream.rs` from the `flac` repository: the
incremental parsing state machine (`handle_marker` / `handle_metadata` /
`handle_frame` / `handle`), the `Stream` frame-decode orchestration
(`next_frame`), the construction driver loop (`from_stream_producer`),
and the sample iterator (`Iter::new` / `Iter::next` / `Iter::size_hint`).

Machine integers are modelled as `Nat` (with explicit `% 2^64` where u64
wraparound matters); byte windows are `List Nat`; the external grammars
(`metadata::block`, `frame_parser`) and the external decoders
(`subframe::decode`, `frame::decode`) that are not part of `src/` are
either universally quantified parameters or modelled from the spec, as
noted on each definition.
-/

namespace Flac

/-- Stream-wide parameters from the mandatory first metadata block
(`metadata::StreamInfo`, external to `src/`).  Only the fields read by
`stream.rs` are modelled: `channels`, `max_block_size`, `total_samples`.
`total_samples` is a u64 in the source, modelled as `Nat`. -/
structure StreamInfo where
  channels : Nat
  max_block_size : Nat
  total_samples : Nat
  deriving DecidableEq

/-- Modelled from the spec: `StreamInfo::new()` (in `metadata.rs`, not under
`src/`) produces the zero/empty defaults used before the stream-info block
is parsed. -/
def StreamInfo.new : StreamInfo :=
  { channels := 0, max_block_size := 0, total_samples := 0 }

/-- Modelled from the spec: the payload of a metadata block
(`metadata::Data`, not under `src/`).  `stream.rs` only discriminates
stream-info from everything else, so non-stream-info bodies are opaque. -/
inductive Data where
  | streamInfo (info : StreamInfo)
  | other (payload : Nat)
  deriving DecidableEq

/-- A parsed metadata block (`metadata::Metadata`, external): the is-last
flag plus the payload. -/
structure Metadata where
  is_last : Bool
  data : Data
  deriving DecidableEq

/-- Modelled from the spec: one channel's parsed subframe
(`subframe::Subframe`, not under `src/`), represented by the sample values
its decode produces. -/
structure Subframe where
  data : List Int
  deriving DecidableEq

/-- A frame header (`frame::Header`, external): channel count, block size
and the channel-assignment mode (opaque tag). -/
structure FrameHeader where
  channels : Nat
  block_size : Nat
  channel_assignment : Nat
  deriving DecidableEq

/-- One parsed, not yet decoded frame (`frame::Frame`, external). -/
structure Frame where
  header : FrameHeader
  subframes : List Subframe
  deriving DecidableEq

/-- The parser state of `stream.rs` (`enum ParserState`). -/
inductive ParserState where
  | Marker
  | Metadata
  | Frame
  deriving DecidableEq

/-- The `Stream` struct of `stream.rs`: stream info, accumulated metadata,
accumulated undecoded frames, parser state, the planar decode buffer
`output`, and the decode cursor `frame_index`. -/
structure Stream where
  info : StreamInfo
  metadata : List Metadata
  frames : List Frame
  state : ParserState
  output : List Int
  frame_index : Nat
  deriving DecidableEq

/-- Source `Stream::new()`. -/
def Stream.new : Stream :=
  { info := StreamInfo.new, metadata := [], frames := [],
    state := ParserState.Marker, output := [], frame_index := 0 }

/-- Modelled from the spec: `subframe::decode` (in `subframe.rs`, not under
`src/`) writes exactly `block_size` reconstructed samples into the
caller-supplied region; here it produces that list of samples. -/
def subframeDecode (sf : Subframe) (block_size : Nat) : List Int :=
  (List.range block_size).map (fun i => sf.data.getD i 0)

/-- In-place write of `vals` into `out` starting at `start`, the effect of
handing `&mut self.output[start..end]` to a decoder that fills it. -/
def writeRegion (start : Nat) (vals out : List Int) : List Int :=
  out.take start ++ vals ++ out.drop (start + vals.length)

/-- The subframe loop of `Stream::next_frame`: iterate over the subframes
with the running `channel` counter, writing channel `ch`'s decoded samples
into `[ch*block_size, (ch+1)*block_size)` of the buffer. -/
def decodeChannelsAux (block_size : Nat) :
    List Subframe → Nat → List Int → List Int
  | [], _, out => out
  | sf :: rest, ch, out =>
      decodeChannelsAux block_size rest (ch + 1)
        (writeRegion (ch * block_size) (subframeDecode sf block_size) out)

/-- The loop `for subframe in &frame.subframes[0..channels]` with the
channel counter starting at 0. -/
def decodeChannels (subs : List Subframe) (block_size : Nat)
    (out : List Int) : List Int :=
  decodeChannelsAux block_size subs 0 out

/-- Default frame used to totalize list indexing (the source indexes only
under a bounds guarantee). -/
def dfltFrame : Frame := { header := ⟨0, 0, 0⟩, subframes := [] }

/-- Source `Stream::next_frame`.  The channel-reconstruction step `frame::decode`
(in `frame.rs`, not under `src/`) is a parameter `rec`: it receives the
frame's channel assignment and the whole `output` buffer and returns the
rewritten buffer (per the spec it rewrites planar regions in place).
Returns the yielded slice (`None` when `frame_index` is past the end)
together with the post-call stream. -/
def Stream.next_frame (rec : Nat → List Int → List Int) (s : Stream) :
    Option (List Int) × Stream :=
  if s.frames.isEmpty || s.frames.length ≤ s.frame_index then
    (none, s)
  else
    let frame := s.frames.getD s.frame_index dfltFrame
    let channels := frame.header.channels
    let block_size := frame.header.block_size
    let out1 := decodeChannels (frame.subframes.take channels) block_size s.output
    let out2 := rec frame.header.channel_assignment out1
    (some (out2.take (block_size * channels)),
     { s with output := out2, frame_index := s.frame_index + 1 })

/-- The nom error payload as used by the handlers: `Err::Position(kind, i)`
(progress: one unit parsed, `i` is the remainder) or `Err::Code(kind)`
(genuine parse failure).  Kinds are the `Custom` codes 0/1/2. -/
inductive Err where
  | position (kind : Nat) (rest : List Nat)
  | code (kind : Nat)
  deriving DecidableEq

/-- The handler result type: `IResult<&[u8], ()>` as produced by the
handlers (`Done` never occurs; success-as-progress is reported through
`Err::Position`). -/
inductive HResult where
  | done (rest : List Nat)
  | error (e : Err)
  | incomplete (needed : Nat)
  deriving DecidableEq

/-- Outcome of an external sub-grammar on a byte window (`nom::IResult`
collapsed to what the handlers inspect). -/
inductive ParseOut (α : Type) where
  | done (rest : List Nat) (value : α)
  | error
  | incomplete (needed : Nat)

/-- nom's `tag!` combinator: incomplete when the window is shorter than
the tag, `Done` with the remainder on an exact prefix match, error
otherwise. -/
def tagParse (t input : List Nat) : ParseOut Unit :=
  if input.length < t.length then ParseOut.incomplete t.length
  else if input.take t.length = t then ParseOut.done (input.drop t.length) ()
  else ParseOut.error

/-- The 4-byte stream marker signature `"fLaC"`. -/
def fLaC : List Nat := [0x66, 0x4C, 0x61, 0x43]

/-- Source `Stream::handle_marker`: nom tag matching on the signature; on match set state to
`Metadata` and report progress (`Err::Position(Custom 0, rest)`). -/
def Stream.handle_marker (s : Stream) (input : List Nat) :
    HResult × Stream :=
  match tagParse fLaC input with
  | ParseOut.done i _ =>
      (HResult.error (Err.position 0 i), { s with state := ParserState.Metadata })
  | ParseOut.error => (HResult.error (Err.code 0), s)
  | ParseOut.incomplete n => (HResult.incomplete n, s)

/-- Source `Stream::handle_metadata`, parameterized by the external block grammar
`metadata::block` (in `metadata.rs`, not under `src/`): on a parsed block,
a stream-info payload overwrites `info`, any other block is appended to
`metadata`; if the block's is-last flag is set, state moves to `Frame`;
progress is reported as `Err::Position(Custom 1, rest)`. -/
def Stream.handle_metadata (bp : List Nat → ParseOut Metadata)
    (s : Stream) (input : List Nat) : HResult × Stream :=
  match bp input with
  | ParseOut.done i block =>
      let s1 :=
        match block.data with
        | Data.streamInfo info => { s with info := info }
        | Data.other _ => { s with metadata := s.metadata ++ [block] }
      let s2 := if block.is_last then { s1 with state := ParserState.Frame } else s1
      (HResult.error (Err.position 1 i), s2)
  | ParseOut.error => (HResult.error (Err.code 1), s)
  | ParseOut.incomplete n => (HResult.incomplete n, s)

/-- Source `Stream::handle_frame`, parameterized by the external frame grammar
`frame_parser` (in `frame.rs`, not under `src/`), which also receives the
current `StreamInfo`: a parsed frame is appended to `frames`; progress is
reported as `Err::Position(Custom 2, rest)`. -/
def Stream.handle_frame (fp : StreamInfo → List Nat → ParseOut Frame)
    (s : Stream) (input : List Nat) : HResult × Stream :=
  match fp s.info input with
  | ParseOut.done i frame =>
      (HResult.error (Err.position 2 i), { s with frames := s.frames ++ [frame] })
  | ParseOut.error => (HResult.error (Err.code 2), s)
  | ParseOut.incomplete n => (HResult.incomplete n, s)

/-- Source `Stream::handle`: dispatch one parse step on the current byte window
according to the parser state. -/
def Stream.handle (bp : List Nat → ParseOut Metadata)
    (fp : StreamInfo → List Nat → ParseOut Frame)
    (s : Stream) (input : List Nat) : HResult × Stream :=
  match s.state with
  | ParserState.Marker => s.handle_marker input
  | ParserState.Metadata => s.handle_metadata bp input
  | ParserState.Frame => s.handle_frame fp input

/-- Modelled from the spec: the driver loop of `Stream::from_stream_producer`
over a `ByteStream` producer (in `utility.rs`, not under `src/`).  The
producer reports end-of-input once the buffer is exhausted (normal
completion); a progress report (`Err::Position`) consumes up to the handler's
remainder and the loop continues; any other outcome (grammar failure, or an
incomplete request that a fixed buffer can never satisfy) aborts with an
error.  Fuel bounds the recursion; a handler that makes no byte progress
exhausts it and is classified as an error (the spec's guard against a
producer misreporting progress).  Returns `(is_error, stream)`. -/
def driverLoop (bp : List Nat → ParseOut Metadata)
    (fp : StreamInfo → List Nat → ParseOut Frame) :
    Nat → Stream → List Nat → Bool × Stream
  | 0, s, _ => (true, s)
  | fuel + 1, s, buf =>
      if buf = [] then (false, s)
      else
        match Stream.handle bp fp s buf with
        | (HResult.error (Err.position _ rest), s1) =>
            if rest.length < buf.length then driverLoop bp fp fuel s1 rest
            else (true, s1)
        | (_, s1) => (true, s1)

/-- Source `Stream::from_stream_producer`: start from the fresh stream, run the
driver loop; on success size `output` to `max_block_size * channels` of the
final `StreamInfo` (the source leaves the contents uninitialized via
`set_len`; the model zero-fills them — the region is logically empty either
way).  On error, fail. -/
def fromStreamProducer (bp : List Nat → ParseOut Metadata)
    (fp : StreamInfo → List Nat → ParseOut Frame)
    (buf : List Nat) : Option Stream :=
  match driverLoop bp fp (buf.length + 1) Stream.new buf with
  | (true, _) => none
  | (false, s) =>
      some { s with
              output := List.replicate (s.info.max_block_size * s.info.channels) 0 }

/-- The sample iterator struct `Iter`: the borrowed stream, the channel
cursor, the iterator's own (never advanced) `frame_index`, the current
`block_size`, the within-block cursor `sample_index`, and the u64
`samples_left` counter (a `Nat` here; the decrement site applies u64
wraparound explicitly). -/
structure Iter where
  stream : Stream
  channel : Nat
  frame_index : Nat
  block_size : Nat
  sample_index : Nat
  samples_left : Nat
  deriving DecidableEq

/-- Source `Iter::new`: all cursors at zero, `samples_left` seeded from
`StreamInfo.total_samples`. -/
def Iter.new (s : Stream) : Iter :=
  { stream := s, channel := 0, frame_index := 0, block_size := 0,
    sample_index := 0, samples_left := s.info.total_samples }

/-- The u64 wrapping decrement, the release-mode meaning of
`self.samples_left -= 1` (debug builds panic when the counter is 0). -/
def u64decr (n : Nat) : Nat := (n + (2 ^ 64 - 1)) % 2 ^ 64

/-- The unconditionally-executed tail of `<Iter as Iterator>::next` (after
the refill `if`): read the sample at planar offset
`sample_index + channel * block_size`, decrement `samples_left` (u64),
advance the channel cursor, wrapping it into `sample_index`. -/
def Iter.emit (i1 : Iter) : Option Int × Iter :=
  let channels := i1.stream.info.channels
  let index := i1.sample_index + i1.channel * i1.block_size
  let sample := i1.stream.output.getD index 0
  let i2 := { i1 with channel := i1.channel + 1,
                      samples_left := u64decr i1.samples_left }
  let i3 :=
    if i2.channel = channels then
      { i2 with channel := 0, sample_index := i2.sample_index + 1 }
    else i2
  (some sample, i3)

/-- Source `Iter::next` (the `Iterator` impl).  When no frame has been decoded yet
(`block_size = 0`) or the block is exhausted, decode the next frame,
returning `None` if no frame remains; on success the new `block_size` is
read from `stream.frames[self.frame_index]` — the iterator's own index,
which is never advanced.  Then `Iter.emit` reads and yields one sample. -/
def Iter.next (rec : Nat → List Int → List Int) (i : Iter) :
    Option Int × Iter :=
  if i.block_size = 0 ∨ i.sample_index = i.block_size then
    match Stream.next_frame rec i.stream with
    | (none, s1) => (none, { i with stream := s1 })
    | (some _, s1) =>
        let frame := s1.frames.getD i.frame_index dfltFrame
        Iter.emit { i with stream := s1, sample_index := 0,
                           block_size := frame.header.block_size }
  else Iter.emit i

/-- Source `Iter::size_hint` (the `Iterator` impl), parameterized by the host's
`usize::max_value()` (as a u64).  `samples_left as usize` is the truncating
cast `% (usizeMax + 1)`; when `samples_left` exceeds `usizeMax` the upper
bound is `None`. -/
def Iter.size_hint (usizeMax : Nat) (i : Iter) : Nat × Option Nat :=
  let samples_left := i.samples_left % (usizeMax + 1)
  if usizeMax < i.samples_left then (samples_left, none)
  else (samples_left, some samples_left)

/-- Collect up to `fuel` samples from the iterator (the source's `for`-loop
driven consumption of the `Iterator`), stopping at the first `None`. -/
def iterCollect (rec : Nat → List Int → List Int) :
    Nat → Iter → List Int × Iter
  | 0, i => ([], i)
  | fuel + 1, i =>
      match Iter.next rec i with
      | (none, i1) => ([], i1)
      | (some v, i1) =>
          let r := iterCollect rec fuel i1
          (v :: r.1, r.2)

/-! ### Concrete example streams -/

/-- Identity channel reconstruction (the effect of `frame::decode` for the
independent channel assignment, per the spec). -/
def idRec : Nat → List Int → List Int := fun _ o => o

/-- A post-construction stream with one channel and two frames of different
block sizes (1 then 2): `total_samples = 3`, `max_block_size = 2`, the
decode buffer sized to `2 * 1`. -/
def exStream2 : Stream :=
  { info := { channels := 1, max_block_size := 2, total_samples := 3 },
    metadata := [],
    frames :=
      [ { header := ⟨1, 1, 0⟩, subframes := [⟨[5]⟩] },
        { header := ⟨1, 2, 0⟩, subframes := [⟨[7, 9]⟩] } ],
    state := ParserState.Frame, output := [0, 0], frame_index := 0 }

/-- A post-construction stream with unknown length (`total_samples = 0`)
whose frame sequence nevertheless holds one sample. -/
def exStream0 : Stream :=
  { info := { channels := 1, max_block_size := 1, total_samples := 0 },
    metadata := [],
    frames := [ { header := ⟨1, 1, 0⟩, subframes := [⟨[42]⟩] } ],
    state := ParserState.Frame, output := [0], frame_index := 0 }

/-! ### Helper lemmas -/

theorem next_frame_none_of (rec : Nat → List Int → List Int) (s : Stream)
    (h : s.frames.length ≤ s.frame_index) :
    Stream.next_frame rec s = (none, s) := by
  unfold Stream.next_frame
  rw [if_pos]
  simp [h]

theorem next_frame_fst_none_iff (rec : Nat → List Int → List Int)
    (s : Stream) :
    (Stream.next_frame rec s).1 = none ↔ s.frames.length ≤ s.frame_index := by
  constructor
  · intro h
    by_contra hlt
    unfold Stream.next_frame at h
    rw [if_neg] at h
    · simp at h
    · simp only [Bool.or_eq_true, decide_eq_true_eq, List.isEmpty_iff]
      push_neg
      refine ⟨?_, Nat.lt_of_not_le hlt⟩
      intro he
      exact hlt (by simp [he])
  · intro h
    rw [next_frame_none_of rec s h]

theorem iter_next_none_fixes (rec : Nat → List Int → List Int) (i : Iter)
    (h : (Iter.next rec i).1 = none) : (Iter.next rec i).2 = i := by
  unfold Iter.next at h ⊢
  by_cases hc : i.block_size = 0 ∨ i.sample_index = i.block_size
  · rw [if_pos hc] at h ⊢
    cases hn : Stream.next_frame rec i.stream with
    | mk fst snd =>
      cases fst with
      | none =>
          have hle : i.stream.frames.length ≤ i.stream.frame_index := by
            have := next_frame_fst_none_iff rec i.stream
            rw [hn] at this
            exact this.mp rfl
          have : Stream.next_frame rec i.stream = (none, i.stream) :=
            next_frame_none_of rec i.stream hle
          rw [this] at hn
          cases hn
          simp
      | some v =>
          rw [hn] at h
          simp [Iter.emit] at h
  · rw [if_neg hc] at h
    simp [Iter.emit] at h

/-! ### Claim theorems -/

/-- C3: when `frame_index` is at or past the end of the frame sequence
(including the empty sequence), `next_frame` returns `None` and leaves the
whole `Stream` unchanged; consequently, once `Iter::next` has returned
`None`, the iterator state is unchanged and every subsequent call also
returns `None`. -/
theorem c3_next_frame_none_idempotent :
    (∀ (rec : Nat → List Int → List Int) (s : Stream),
        s.frames.length ≤ s.frame_index →
        Stream.next_frame rec s = (none, s)) ∧
    (∀ (rec : Nat → List Int → List Int) (i : Iter),
        (Iter.next rec i).1 = none →
        (Iter.next rec i).2 = i ∧
        Iter.next rec ((Iter.next rec i).2) = (none, i)) := by
  refine ⟨next_frame_none_of, fun rec i h => ?_⟩
  have hfix := iter_next_none_fixes rec i h
  refine ⟨hfix, ?_⟩
  rw [hfix]
  have : Iter.next rec i = ((Iter.next rec i).1, (Iter.next rec i).2) := rfl
  rw [this, h, hfix]

/-- Witness for C3 at a concrete exhausted stream. -/
theorem c3_witness :
    (Stream.next_frame idRec { exStream2 with frame_index := 2 } =
       (none, { exStream2 with frame_index := 2 })) ∧
    ((Iter.next idRec (Iter.new { exStream2 with frame_index := 2 })).2 =
       Iter.new { exStream2 with frame_index := 2 } ∧
     Iter.next idRec
         ((Iter.next idRec (Iter.new { exStream2 with frame_index := 2 })).2) =
       (none, Iter.new { exStream2 with frame_index := 2 })) :=
  ⟨c3_next_frame_none_idempotent.1 idRec _ (by decide),
   c3_next_frame_none_idempotent.2 idRec _ (by decide)⟩

/-- C5: in the `Marker` state, a window beginning with the 4-byte `fLaC`
signature makes `handle_marker` transition to `Metadata` and report
progress (`Err::Position`) carrying the remainder; a window shorter than 4
bytes yields an incomplete request; a 4-or-more byte window not beginning
with the signature yields a parse failure (`Err::Code`), not incomplete. -/
theorem c5_handle_marker (s : Stream) (input : List Nat) :
    (input.take 4 = fLaC →
       Stream.handle_marker s input =
         (HResult.error (Err.position 0 (input.drop 4)),
          { s with state := ParserState.Metadata })) ∧
    (input.length < 4 →
       Stream.handle_marker s input = (HResult.incomplete 4, s)) ∧
    (4 ≤ input.length → input.take 4 ≠ fLaC →
       Stream.handle_marker s input = (HResult.error (Err.code 0), s)) := by
  refine ⟨fun hm => ?_, fun hshort => ?_, fun hlen hm => ?_⟩
  · have hlen : 4 ≤ input.length := by
      have := congrArg List.length hm
      simp [fLaC] at this
      omega
    unfold Stream.handle_marker tagParse
    rw [if_neg (by simp [fLaC]; omega)]
    rw [if_pos (by simpa [fLaC] using hm)]
    rfl
  · unfold Stream.handle_marker tagParse
    rw [if_pos (by simp [fLaC]; omega)]
    rfl
  · unfold Stream.handle_marker tagParse
    rw [if_neg (by simp [fLaC]; omega)]
    rw [if_neg (by simpa [fLaC] using hm)]

/-- Witness for C5: the three marker-window cases at concrete inputs. -/
theorem c5_witness :
    (Stream.handle_marker Stream.new [0x66, 0x4C, 0x61, 0x43, 9] =
       (HResult.error (Err.position 0 [9]),
        { Stream.new with state := ParserState.Metadata })) ∧
    (Stream.handle_marker Stream.new [0x66, 0x4C] =
       (HResult.incomplete 4, Stream.new)) ∧
    (Stream.handle_marker Stream.new [1, 2, 3, 4] =
       (HResult.error (Err.code 0), Stream.new)) :=
  ⟨(c5_handle_marker Stream.new _).1 (by decide),
   (c5_handle_marker Stream.new _).2.1 (by decide),
   (c5_handle_marker Stream.new _).2.2 (by decide) (by decide)⟩

/-- C9: `size_hint` reports `samples_left` as both bounds when it fits in
the host index type (`≤ usizeMax`); when it exceeds `usizeMax`, the upper
bound is `None` and the reported lower bound (the truncating cast) is still
a valid lower bound on the counter. -/
theorem c9_size_hint (usizeMax : Nat) (i : Iter) :
    (i.samples_left ≤ usizeMax →
       Iter.size_hint usizeMax i = (i.samples_left, some i.samples_left)) ∧
    (usizeMax < i.samples_left →
       (Iter.size_hint usizeMax i).2 = none ∧
       (Iter.size_hint usizeMax i).1 ≤ i.samples_left) := by
  constructor
  · intro h
    unfold Iter.size_hint
    rw [if_neg (by omega)]
    rw [Nat.mod_eq_of_lt (by omega)]
  · intro h
    unfold Iter.size_hint
    rw [if_pos h]
    exact ⟨rfl, Nat.mod_le _ _⟩

/-- Witness for C9: both branches at `usizeMax = 3`. -/
theorem c9_witness :
    (Iter.size_hint 3 (Iter.new exStream2) = (3, some 3)) ∧
    ((Iter.size_hint 3 { Iter.new exStream2 with samples_left := 5 }).2 =
       none ∧
     (Iter.size_hint 3 { Iter.new exStream2 with samples_left := 5 }).1 ≤
       ({ Iter.new exStream2 with samples_left := 5 } : Iter).samples_left) :=
  ⟨(c9_size_hint 3 (Iter.new exStream2)).1 (by decide),
   (c9_size_hint 3 _).2 (by decide)⟩

/-- C1 (refuted by the code): the iterator's current `block_size` is read
from `frames[self.frame_index]` where the iterator's own `frame_index` is
never advanced; on `exStream2` (frames with block sizes 1 then 2), after
the second refill the stream has decoded frame 1 (of block size 2), yet
the iterator's `block_size` is still 1 — the sample cursor limit of the
first frame, not of the frame whose samples occupy the decode buffer. -/
theorem c1_counterexample :
    ((iterCollect idRec 2 (Iter.new exStream2)).2.stream.frame_index = 2 ∧
     (exStream2.frames.getD 1 dfltFrame).header.block_size = 2) ∧
    (iterCollect idRec 2 (Iter.new exStream2)).2.block_size = 1 := by decide

/-- C2 (refuted by the code): on `exStream2` — a 1-channel stream whose two
frames cover exactly `N = 3` samples (`total_samples = 3`) — running the
iterator to exhaustion yields `[5, 7]`: only 2 items instead of
`N * C = 3`, and the second frame's sample `9` is never produced, because
the stale `block_size` (claim C1's defect) ends each later block after the
first frame's block size. -/
theorem c2_counterexample :
    (exStream2.info.total_samples = 3 ∧ exStream2.info.channels = 1 ∧
     (exStream2.frames.map (fun f => f.header.block_size)).sum = 3) ∧
    (iterCollect idRec 10 (Iter.new exStream2)).1 = [5, 7] ∧
    (iterCollect idRec 10 (Iter.new exStream2)).2.block_size ≠ 0 ∧
    Iter.next idRec (iterCollect idRec 10 (Iter.new exStream2)).2 =
      (none, (iterCollect idRec 10 (Iter.new exStream2)).2) := by decide

/-- C10 (refuted by the code): on `exStream0` (`total_samples = 0`, i.e.
unknown, but one frame holding one sample) the first `Iter::next` call
yields a sample while `samples_left` is 0, so the unconditional u64
decrement underflows (panic in debug builds; wraparound to `2^64 - 1`
in release builds, as the model shows). -/
theorem c10_counterexample :
    (Iter.new exStream0).samples_left = 0 ∧
    (Iter.next idRec (Iter.new exStream0)).1 = some 42 ∧
    ((Iter.next idRec (Iter.new exStream0)).2).samples_left = 2 ^ 64 - 1 := by
  decide

/-- C6: in the `Metadata` state, a successfully parsed block of stream-info
type overwrites `info` and is not appended to the metadata sequence; any
other block is appended at the end (preserving on-disk order) with `info`
untouched; the state moves to `Frame` exactly when the block's is-last flag
is set; progress carries the remainder. -/
theorem c6_handle_metadata (bp : List Nat → ParseOut Metadata) (s : Stream)
    (input rest : List Nat) (block : Metadata)
    (hs : s.state = ParserState.Metadata)
    (hbp : bp input = ParseOut.done rest block) :
    (Stream.handle_metadata bp s input).1 =
      HResult.error (Err.position 1 rest) ∧
    (∀ info, block.data = Data.streamInfo info →
        (Stream.handle_metadata bp s input).2.info = info ∧
        (Stream.handle_metadata bp s input).2.metadata = s.metadata) ∧
    (∀ p, block.data = Data.other p →
        (Stream.handle_metadata bp s input).2.metadata =
          s.metadata ++ [block] ∧
        (Stream.handle_metadata bp s input).2.info = s.info) ∧
    ((Stream.handle_metadata bp s input).2.state = ParserState.Frame ↔
       block.is_last = true) ∧
    (Stream.handle_metadata bp s input).2.frames = s.frames ∧
    (Stream.handle_metadata bp s input).2.frame_index = s.frame_index := by
  unfold Stream.handle_metadata
  rw [hbp]
  cases hd : block.data with
  | streamInfo info =>
      cases hl : block.is_last <;>
        simp [hd, hl, hs]
  | other p =>
      cases hl : block.is_last <;>
        simp [hd, hl, hs]

/-- Witness for C6: a concrete non-stream-info, last-flagged block. -/
theorem c6_witness :
    (Stream.handle_metadata
        (fun _ => ParseOut.done [9] ⟨true, Data.other 7⟩)
        { Stream.new with state := ParserState.Metadata } [1]).1 =
      HResult.error (Err.position 1 [9]) ∧
    (∀ info, (⟨true, Data.other 7⟩ : Metadata).data = Data.streamInfo info →
        (Stream.handle_metadata
            (fun _ => ParseOut.done [9] ⟨true, Data.other 7⟩)
            { Stream.new with state := ParserState.Metadata } [1]).2.info =
          info ∧
        (Stream.handle_metadata
            (fun _ => ParseOut.done [9] ⟨true, Data.other 7⟩)
            { Stream.new with state := ParserState.Metadata }
            [1]).2.metadata =
          ({ Stream.new with state := ParserState.Metadata } : Stream).metadata) ∧
    (∀ p, (⟨true, Data.other 7⟩ : Metadata).data = Data.other p →
        (Stream.handle_metadata
            (fun _ => ParseOut.done [9] ⟨true, Data.other 7⟩)
            { Stream.new with state := ParserState.Metadata }
            [1]).2.metadata =
          ({ Stream.new with state := ParserState.Metadata } : Stream).metadata
            ++ [⟨true, Data.other 7⟩] ∧
        (Stream.handle_metadata
            (fun _ => ParseOut.done [9] ⟨true, Data.other 7⟩)
            { Stream.new with state := ParserState.Metadata } [1]).2.info =
          ({ Stream.new with state := ParserState.Metadata } : Stream).info) ∧
    ((Stream.handle_metadata
        (fun _ => ParseOut.done [9] ⟨true, Data.other 7⟩)
        { Stream.new with state := ParserState.Metadata } [1]).2.state =
        ParserState.Frame ↔
      (⟨true, Data.other 7⟩ : Metadata).is_last = true) ∧
    (Stream.handle_metadata
        (fun _ => ParseOut.done [9] ⟨true, Data.other 7⟩)
        { Stream.new with state := ParserState.Metadata } [1]).2.frames =
      ({ Stream.new with state := ParserState.Metadata } : Stream).frames ∧
    (Stream.handle_metadata
        (fun _ => ParseOut.done [9] ⟨true, Data.other 7⟩)
        { Stream.new with state := ParserState.Metadata } [1]).2.frame_index =
      ({ Stream.new with state := ParserState.Metadata } : Stream).frame_index :=
  c6_handle_metadata (fun _ => ParseOut.done [9] ⟨true, Data.other 7⟩)
    { Stream.new with state := ParserState.Metadata } [1] [9]
    ⟨true, Data.other 7⟩ rfl rfl

/-- Forward-only rank of the parser states `Marker → Metadata → Frame`. -/
def stateRank : ParserState → Nat
  | ParserState.Marker => 0
  | ParserState.Metadata => 1
  | ParserState.Frame => 2

/-- Fold a sequence of byte windows through `Stream::handle`. -/
def runHandles (bp : List Nat → ParseOut Metadata)
    (fp : StreamInfo → List Nat → ParseOut Frame)
    (s : Stream) (inputs : List (List Nat)) : Stream :=
  inputs.foldl (fun t inp => (Stream.handle bp fp t inp).2) s

theorem handle_marker_state (s : Stream) (input : List Nat) :
    (Stream.handle_marker s input).2.state = s.state ∨
    (Stream.handle_marker s input).2.state = ParserState.Metadata := by
  unfold Stream.handle_marker
  cases tagParse fLaC input <;> simp

theorem handle_metadata_state (bp : List Nat → ParseOut Metadata)
    (s : Stream) (input : List Nat) :
    (Stream.handle_metadata bp s input).2.state = s.state ∨
    (Stream.handle_metadata bp s input).2.state = ParserState.Frame := by
  unfold Stream.handle_metadata
  cases bp input with
  | done i block =>
      cases hd : block.data <;> cases hl : block.is_last <;> simp [hd, hl]
  | error => simp
  | incomplete n => simp

theorem handle_frame_state (fp : StreamInfo → List Nat → ParseOut Frame)
    (s : Stream) (input : List Nat) :
    (Stream.handle_frame fp s input).2.state = s.state := by
  unfold Stream.handle_frame
  cases fp s.info input <;> simp

theorem handle_frame_index (bp : List Nat → ParseOut Metadata)
    (fp : StreamInfo → List Nat → ParseOut Frame)
    (s : Stream) (input : List Nat) :
    (Stream.handle bp fp s input).2.frame_index = s.frame_index := by
  unfold Stream.handle
  cases hs : s.state
  · unfold Stream.handle_marker
    cases tagParse fLaC input <;> simp
  · unfold Stream.handle_metadata
    cases bp input with
    | done i block =>
        cases hd : block.data <;> cases hl : block.is_last <;> simp [hd, hl]
    | error => simp
    | incomplete n => simp
  · unfold Stream.handle_frame
    cases fp s.info input <;> simp

theorem handle_state_mono (bp : List Nat → ParseOut Metadata)
    (fp : StreamInfo → List Nat → ParseOut Frame)
    (s : Stream) (input : List Nat) :
    stateRank s.state ≤ stateRank (Stream.handle bp fp s input).2.state := by
  unfold Stream.handle
  cases hs : s.state
  · simp [stateRank]
  · rcases handle_metadata_state bp s input with h | h <;>
      rw [h] <;> simp [hs, stateRank]
  · rw [handle_frame_state fp s input, hs]

/-- C7: parser state only moves forward along
`Marker → Metadata → Frame` — `handle_marker` can only set `Metadata`,
`handle_metadata` can only set `Frame`, `handle_frame` never changes
state — so any sequence of `handle` invocations is rank-monotone and never
touches `frame_index`; `next_frame` never changes the parser state and only
increases `frame_index`. -/
theorem c7_forward_only :
    (∀ (s : Stream) (input : List Nat),
        (Stream.handle_marker s input).2.state = s.state ∨
        (Stream.handle_marker s input).2.state = ParserState.Metadata) ∧
    (∀ (bp : List Nat → ParseOut Metadata) (s : Stream) (input : List Nat),
        (Stream.handle_metadata bp s input).2.state = s.state ∨
        (Stream.handle_metadata bp s input).2.state = ParserState.Frame) ∧
    (∀ (fp : StreamInfo → List Nat → ParseOut Frame) (s : Stream)
        (input : List Nat),
        (Stream.handle_frame fp s input).2.state = s.state) ∧
    (∀ (bp : List Nat → ParseOut Metadata)
        (fp : StreamInfo → List Nat → ParseOut Frame)
        (s : Stream) (input : List Nat),
        stateRank s.state ≤
          stateRank (Stream.handle bp fp s input).2.state ∧
        (Stream.handle bp fp s input).2.frame_index = s.frame_index) ∧
    (∀ (rec : Nat → List Int → List Int) (s : Stream),
        (Stream.next_frame rec s).2.state = s.state ∧
        s.frame_index ≤ (Stream.next_frame rec s).2.frame_index) ∧
    (∀ (bp : List Nat → ParseOut Metadata)
        (fp : StreamInfo → List Nat → ParseOut Frame)
        (s : Stream) (inputs : List (List Nat)),
        stateRank s.state ≤ stateRank (runHandles bp fp s inputs).state ∧
        (runHandles bp fp s inputs).frame_index = s.frame_index) := by
  have hnf : ∀ (rec : Nat → List Int → List Int) (s : Stream),
      (Stream.next_frame rec s).2.state = s.state ∧
      s.frame_index ≤ (Stream.next_frame rec s).2.frame_index := by
    intro rec s
    unfold Stream.next_frame
    by_cases hc : (s.frames.isEmpty || decide (s.frames.length ≤ s.frame_index)) = true
    · rw [if_pos hc]; exact ⟨rfl, Nat.le_refl _⟩
    · rw [if_neg hc]; exact ⟨rfl, Nat.le_succ _⟩
  have hrun : ∀ (bp : List Nat → ParseOut Metadata)
      (fp : StreamInfo → List Nat → ParseOut Frame)
      (s : Stream) (inputs : List (List Nat)),
      stateRank s.state ≤ stateRank (runHandles bp fp s inputs).state ∧
      (runHandles bp fp s inputs).frame_index = s.frame_index := by
    intro bp fp s inputs
    induction inputs generalizing s with
    | nil => exact ⟨Nat.le_refl _, rfl⟩
    | cons inp rest ih =>
        have h1 := handle_state_mono bp fp s inp
        have h2 := handle_frame_index bp fp s inp
        have h3 := ih ((Stream.handle bp fp s inp).2)
        have hstep : runHandles bp fp s (inp :: rest) =
            runHandles bp fp ((Stream.handle bp fp s inp).2) rest := rfl
        rw [hstep]
        exact ⟨Nat.le_trans h1 h3.1, by rw [h3.2, h2]⟩
  exact ⟨handle_marker_state, handle_metadata_state, handle_frame_state,
    fun bp fp s input =>
      ⟨handle_state_mono bp fp s input, handle_frame_index bp fp s input⟩,
    hnf, hrun⟩

theorem handle_output_eq (bp : List Nat → ParseOut Metadata)
    (fp : StreamInfo → List Nat → ParseOut Frame)
    (s : Stream) (input : List Nat) :
    (Stream.handle bp fp s input).2.output = s.output := by
  unfold Stream.handle
  cases hs : s.state
  · unfold Stream.handle_marker
    cases tagParse fLaC input <;> simp
  · unfold Stream.handle_metadata
    cases bp input with
    | done i block =>
        cases hd : block.data <;> cases hl : block.is_last <;> simp [hd, hl]
    | error => simp
    | incomplete n => simp
  · unfold Stream.handle_frame
    cases fp s.info input <;> simp

theorem driverLoop_output_eq (bp : List Nat → ParseOut Metadata)
    (fp : StreamInfo → List Nat → ParseOut Frame) :
    ∀ (fuel : Nat) (s : Stream) (buf : List Nat),
      (driverLoop bp fp fuel s buf).2.output = s.output := by
  intro fuel
  induction fuel with
  | zero => intro s buf; rfl
  | succ n ih =>
      intro s buf
      unfold driverLoop
      by_cases hb : buf = []
      · rw [if_pos hb]
      · rw [if_neg hb]
        have hout := handle_output_eq bp fp s buf
        cases hh : Stream.handle bp fp s buf with
        | mk r s1 =>
            rw [hh] at hout
            cases r with
            | done rest => simpa using hout
            | error e =>
                cases e with
                | position k rest =>
                    show (if rest.length < buf.length then
                            driverLoop bp fp n s1 rest
                          else (true, s1)).2.output = s.output
                    by_cases hlt : rest.length < buf.length
                    · rw [if_pos hlt]
                      rw [ih s1 rest]
                      simpa using hout
                    · rw [if_neg hlt]
                      simpa using hout
                | code k => simpa using hout
            | incomplete m => simpa using hout

/-- C8: whenever construction from a producer succeeds, the resulting
decode buffer has length exactly `max_block_size * channels` of the final
`StreamInfo` and is zero-filled (logically empty: no frame has been decoded
into it); the driver loop itself never touches `output` (it stays the empty
buffer of `Stream::new`), so the sizing after the loop is the single sizing
of the buffer. -/
theorem c8_output_sizing (bp : List Nat → ParseOut Metadata)
    (fp : StreamInfo → List Nat → ParseOut Frame)
    (buf : List Nat) (s : Stream)
    (h : fromStreamProducer bp fp buf = some s) :
    s.output.length = s.info.max_block_size * s.info.channels ∧
    s.output = List.replicate (s.info.max_block_size * s.info.channels) 0 ∧
    (driverLoop bp fp (buf.length + 1) Stream.new buf).2.output = [] := by
  unfold fromStreamProducer at h
  cases hd : driverLoop bp fp (buf.length + 1) Stream.new buf with
  | mk isErr s1 =>
      rw [hd] at h
      cases isErr with
      | true => simp at h
      | false =>
          simp only [Option.some.injEq] at h
          subst h
          refine ⟨by simp, rfl, ?_⟩
          have hout := driverLoop_output_eq bp fp (buf.length + 1) Stream.new buf
          rw [hd] at hout
          simpa using hout

/-- Trivial external grammars for the C8 witness: every window fails. -/
def failBp : List Nat → ParseOut Metadata := fun _ => ParseOut.error

/-- Trivial external frame grammar for the C8 witness. -/
def failFp : StreamInfo → List Nat → ParseOut Frame := fun _ _ => ParseOut.error

/-- Witness for C8: constructing from the empty buffer succeeds with the
zero-sized output buffer. -/
theorem c8_witness :
    Stream.new.output.length =
      Stream.new.info.max_block_size * Stream.new.info.channels ∧
    Stream.new.output =
      List.replicate
        (Stream.new.info.max_block_size * Stream.new.info.channels) 0 ∧
    (driverLoop failBp failFp (List.length ([] : List Nat) + 1)
        Stream.new []).2.output = [] :=
  c8_output_sizing failBp failFp [] Stream.new rfl

theorem subframeDecode_length (sf : Subframe) (bs : Nat) :
    (subframeDecode sf bs).length = bs := by
  simp [subframeDecode]

theorem writeRegion_length (start : Nat) (vals out : List Int)
    (h : start + vals.length ≤ out.length) :
    (writeRegion start vals out).length = out.length := by
  simp [writeRegion]
  omega

theorem decodeChannelsAux_closed (bs : Nat) (subs : List Subframe) :
    ∀ (ch0 : Nat) (out : List Int),
      ch0 * bs + subs.length * bs ≤ out.length →
      decodeChannelsAux bs subs ch0 out =
        out.take (ch0 * bs) ++
        (subs.map (fun sf => subframeDecode sf bs)).flatten ++
        out.drop (ch0 * bs + subs.length * bs) := by
  induction subs with
  | nil =>
      intro ch0 out h
      simp [decodeChannelsAux, List.take_append_drop]
  | cons sf rest ih =>
      intro ch0 out h
      have hlen : (subframeDecode sf bs).length = bs := subframeDecode_length sf bs
      have hfit : ch0 * bs + bs ≤ out.length := by
        have : (sf :: rest).length * bs = rest.length * bs + bs := by
          simp [Nat.succ_mul]
        omega
      have hout' : (writeRegion (ch0 * bs) (subframeDecode sf bs) out).length
          = out.length :=
        writeRegion_length _ _ _ (by omega)
      have hbound : (ch0 + 1) * bs + rest.length * bs ≤
          (writeRegion (ch0 * bs) (subframeDecode sf bs) out).length := by
        rw [hout']
        have h1 : (ch0 + 1) * bs = ch0 * bs + bs := by ring
        have h2 : (sf :: rest).length * bs = rest.length * bs + bs := by
          simp [Nat.succ_mul]
        omega
      have := ih (ch0 + 1) (writeRegion (ch0 * bs) (subframeDecode sf bs) out)
        hbound
      show decodeChannelsAux bs rest (ch0 + 1)
          (writeRegion (ch0 * bs) (subframeDecode sf bs) out) = _
      rw [this]
      have htk : (out.take (ch0 * bs)).length = ch0 * bs := by
        rw [List.length_take]
        omega
      have hw : writeRegion (ch0 * bs) (subframeDecode sf bs) out =
          out.take (ch0 * bs) ++
          (subframeDecode sf bs ++ out.drop (ch0 * bs + bs)) := by
        unfold writeRegion
        rw [hlen, List.append_assoc]
      have htake : (writeRegion (ch0 * bs) (subframeDecode sf bs) out).take
          ((ch0 + 1) * bs) =
          out.take (ch0 * bs) ++ subframeDecode sf bs := by
        rw [hw]
        have h1 : (ch0 + 1) * bs = (out.take (ch0 * bs)).length + bs := by
          rw [htk]; ring
        rw [h1, List.take_append, List.take_left' hlen]
      have hdrop : (writeRegion (ch0 * bs) (subframeDecode sf bs) out).drop
          ((ch0 + 1) * bs + rest.length * bs) =
          out.drop (ch0 * bs + (sf :: rest).length * bs) := by
        rw [hw]
        have h1 : (ch0 + 1) * bs + rest.length * bs =
            (out.take (ch0 * bs)).length + (bs + rest.length * bs) := by
          rw [htk]; ring
        rw [h1, List.drop_append]
        have h2 : bs + rest.length * bs =
            (subframeDecode sf bs).length + rest.length * bs := by rw [hlen]
        rw [h2, List.drop_append, List.drop_drop]
        congr 1
        simp [Nat.succ_mul]
        ring
      rw [htake, hdrop]
      simp [List.append_assoc]

theorem flatten_region (bs : Nat) :
    ∀ (L : List (List Int)) (tail : List Int) (c : Nat),
      (∀ l ∈ L, l.length = bs) → c < L.length →
      ((L.flatten ++ tail).drop (c * bs)).take bs = L.getD c [] := by
  intro L
  induction L with
  | nil => intro tail c _ hc; simp at hc
  | cons l L' ih =>
      intro tail c hL hc
      have hl : l.length = bs := hL l (by simp)
      cases c with
      | zero =>
          simp only [Nat.zero_mul, List.drop_zero, List.getD]
          have : (l :: L').flatten ++ tail = l ++ (L'.flatten ++ tail) := by
            simp [List.append_assoc]
          rw [this, ← hl, List.take_left]
          rfl
      | succ c' =>
          have h1 : (l :: L').flatten ++ tail = l ++ (L'.flatten ++ tail) := by
            simp [List.append_assoc]
          have h2 : (c' + 1) * bs = l.length + c' * bs := by
            rw [hl]; ring
          rw [h1, h2, List.drop_append]
          have h3 := ih tail c' (fun x hx => hL x (by simp [hx]))
            (by simpa using hc)
          rw [h3]
          rfl

/-- The local variable `frame` of `Stream::next_frame`: the frame at the
current decode cursor. -/
def curFrame (s : Stream) : Frame := s.frames.getD s.frame_index dfltFrame

/-- The decode buffer contents after the subframe loop of
`Stream::next_frame`, before channel reconstruction. -/
def midBuffer (s : Stream) : List Int :=
  decodeChannels ((curFrame s).subframes.take (curFrame s).header.channels)
    (curFrame s).header.block_size s.output

/-- C4: with `frame_index` in range (and the source's implicit bounds —
enough subframes for the header's channel count, and the frame fitting the
buffer — made explicit), one `next_frame` call decodes exactly the frame at
`frame_index`: the buffer after the subframe loop holds channel `c`'s
decoded subframe in the planar region `[c*block_size, (c+1)*block_size)`
for every `c < channels` (in increasing channel order), channel
reconstruction `rec` is then applied to the whole buffer, `frame_index`
advances by exactly one, the returned slice is
`[0, block_size*channels)` of the reconstructed buffer, and no other field
changes. -/
theorem c4_next_frame_decodes (rec : Nat → List Int → List Int) (s : Stream)
    (hlt : s.frame_index < s.frames.length)
    (hsub : (curFrame s).header.channels ≤ (curFrame s).subframes.length)
    (hfit : (curFrame s).header.block_size * (curFrame s).header.channels ≤
      s.output.length) :
    Stream.next_frame rec s =
      (some ((rec (curFrame s).header.channel_assignment (midBuffer s)).take
               ((curFrame s).header.block_size * (curFrame s).header.channels)),
       { s with
           output := rec (curFrame s).header.channel_assignment (midBuffer s),
           frame_index := s.frame_index + 1 }) ∧
    (∀ c, c < (curFrame s).header.channels →
       ((midBuffer s).drop (c * (curFrame s).header.block_size)).take
           (curFrame s).header.block_size =
         subframeDecode ((curFrame s).subframes.getD c ⟨[]⟩)
           (curFrame s).header.block_size) := by
  constructor
  · unfold Stream.next_frame
    rw [if_neg]
    · rfl
    · simp only [Bool.or_eq_true, decide_eq_true_eq, List.isEmpty_iff]
      push_neg
      constructor
      · intro he
        rw [he] at hlt
        simp at hlt
      · omega
  · intro c hc
    set bs := (curFrame s).header.block_size with hbs
    set ch := (curFrame s).header.channels with hch
    have htklen : ((curFrame s).subframes.take ch).length = ch := by
      rw [List.length_take]
      omega
    have hclosed := decodeChannelsAux_closed bs
      ((curFrame s).subframes.take ch) 0 s.output
      (by rw [htklen]; simpa [Nat.mul_comm] using hfit)
    have hmid : midBuffer s =
        (((curFrame s).subframes.take ch).map
            (fun sf => subframeDecode sf bs)).flatten ++
          s.output.drop (ch * bs) := by
      unfold midBuffer decodeChannels
      rw [← hbs, ← hch, hclosed]
      simp [htklen]
    rw [hmid]
    have hmap : ∀ l ∈ ((curFrame s).subframes.take ch).map
        (fun sf => subframeDecode sf bs), l.length = bs := by
      intro l hl
      rcases List.mem_map.mp hl with ⟨sf, _, rfl⟩
      exact subframeDecode_length sf bs
    have hcl : c < (((curFrame s).subframes.take ch).map
        (fun sf => subframeDecode sf bs)).length := by
      rw [List.length_map, htklen]
      exact hc
    rw [flatten_region bs _ _ c hmap hcl]
    have hcs : c < (curFrame s).subframes.length := by omega
    have hct : c < ((curFrame s).subframes.take ch).length := by
      rw [htklen]; exact hc
    rw [List.getD_eq_getElem _ _ hcl, List.getElem_map,
        List.getElem_take, ← List.getD_eq_getElem _ ⟨[]⟩ hcs]

/-- Witness for C4: decoding frame 0 of `exStream2`. -/
theorem c4_witness :
    Stream.next_frame idRec exStream2 =
      (some ((idRec (curFrame exStream2).header.channel_assignment
                (midBuffer exStream2)).take
               ((curFrame exStream2).header.block_size *
                 (curFrame exStream2).header.channels)),
       { exStream2 with
           output := idRec (curFrame exStream2).header.channel_assignment
             (midBuffer exStream2),
           frame_index := exStream2.frame_index + 1 }) ∧
    (∀ c, c < (curFrame exStream2).header.channels →
       ((midBuffer exStream2).drop
            (c * (curFrame exStream2).header.block_size)).take
           (curFrame exStream2).header.block_size =
         subframeDecode ((curFrame exStream2).subframes.getD c ⟨[]⟩)
           (curFrame exStream2).header.block_size) :=
  c4_next_frame_decodes idRec exStream2 (by decide) (by decide) (by decide)

end Flac
